import Mathlib

/-!
Shallow embedding of the occupancy-counting orchestrator
(src/people-count/yolo-webcam.py) and proofs about it.

The embedding translates, from the source:
  - load_zones            (lines 86-100): zone-configuration parsing,
  - capture_image         (lines 105-159): camera + cross-process lock handling,
  - cv.pointPolygonTest   (OpenCV crossing-number algorithm used at line 192),
  - count_people          (lines 164-220): the counting operation,
  - count_people_event    (lines 234-251): the Socket.IO request handler,
  - the main reconnection loop (lines 267-306).

External effects (file system, camera hardware, network) are modelled as
explicit environment values describing each outcome the code branches on.
-/

/-- Assignment into a Python dict viewed as an association list that keeps
insertion order: an existing key is overwritten in place, a new key is
appended at the end. -/
def setAssoc {α : Type} : List (String × α) → String → α → List (String × α)
  | [], k, v => [(k, v)]
  | (k0, v0) :: rest, k, v =>
      if k0 = k then (k, v) :: rest else (k0, v0) :: setAssoc rest k v

/-- Lookup in a Python dict viewed as an association list (dict.get). -/
def assocLookup {α : Type} : List (String × α) → String → Option α
  | [], _ => none
  | (k0, v0) :: rest, k => if k0 = k then some v0 else assocLookup rest k

/-- Removal of one key from an association list; used to say that a handler
preserves every key of a payload other than the one it writes. -/
def eraseKey {α : Type} (l : List (String × α)) (k : String) : List (String × α) :=
  l.filter (fun kv => kv.1 ≠ k)

/-- Sequencing of a fallible per-element computation over a list, stopping at
the first failure.  This models a Python loop whose body may raise: one raise
discards everything computed so far. -/
def mapOption {α β : Type} (f : α → Option β) : List α → Option (List β)
  | [] => some []
  | a :: as =>
      match f a, mapOption f as with
      | some b, some bs => some (b :: bs)
      | _, _ => none

/-- JSON values as produced by json.load, restricted to the shapes the zone
document and the event payloads range over.  String leaves are omitted: the
source never produces them and numpy's coercion of strings is
version-dependent, so documents containing them are outside this model. -/
inductive Json where
  | null : Json
  | bool : Bool → Json
  | num : ℚ → Json
  | arr : List Json → Json
  | obj : List (String × Json) → Json

/-- Outcome of looking at the zone-configuration file, as distinguished by
load_zones: the os.path.exists check (missing), an IO error while reading
(unreadable), a json.load failure (invalidJson), or a parsed document. -/
inductive ZoneDoc where
  | missing : ZoneDoc
  | unreadable : ZoneDoc
  | invalidJson : ZoneDoc
  | parsed : Json → ZoneDoc

/-- Conversion of one JSON coordinate value by np.array(..., dtype=np.int32):
a number is truncated toward zero (C cast), a boolean becomes 1 or 0; any
other value makes the array construction raise. -/
def coordOf : Json → Option Int
  | Json.num q => some (q.num.tdiv (q.den : Int))
  | Json.bool b => some (if b then 1 else 0)
  | _ => none

/-- Extraction of one point p as [p['x'], p['y']] (line 95): p must be an
object carrying numeric values at keys "x" and "y", otherwise the
comprehension or the array construction raises. -/
def parsePoint : Json → Option (Int × Int)
  | Json.obj kvs =>
      match assocLookup kvs "x", assocLookup kvs "y" with
      | some jx, some jy =>
          match coordOf jx, coordOf jy with
          | some a, some b => some (a, b)
          | _, _ => none
      | _, _ => none
  | _ => none

/-- Extraction of one zone's point list (line 95): the value must be a JSON
array and every element must be a point. -/
def parsePoints : Json → Option (List (Int × Int))
  | Json.arr ps => mapOption parsePoint ps
  | _ => none

/-- Extraction of one (zone name, polygon) entry of the document. -/
def parseZone (e : String × Json) : Option (String × List (Int × Int)) :=
  (parsePoints e.2).map (fun ps => (e.1, ps))

/-- Embedding of load_zones (lines 86-100).  A missing file returns empty
zones (line 89); any exception while reading, parsing, or converting returns
empty zones (lines 98-100); data.items() on a non-object raises, caught the
same way; a raise while building zones_dict discards all earlier entries. -/
def load_zones : ZoneDoc → List (String × List (Int × Int))
  | ZoneDoc.missing => []
  | ZoneDoc.unreadable => []
  | ZoneDoc.invalidJson => []
  | ZoneDoc.parsed (Json.obj entries) => (mapOption parseZone entries).getD []
  | ZoneDoc.parsed _ => []

/-- Well-formedness of a parsed zone document: an object all of whose values
are arrays of well-formed points.  Exactly the documents on which the body of
load_zones runs to completion without raising. -/
def zonesWellFormed : Json → Bool
  | Json.obj entries => entries.all (fun e => (parsePoints e.2).isSome)
  | _ => false

/-- Conversion of an integer polygon to exact rational coordinates.  OpenCV's
pointPolygonTest converts the int32 contour to floating point when the query
point is not integral; the coordinates involved here are small, so the
floating computation is exact and rational arithmetic models it faithfully. -/
def toQPoly (poly : List (Int × Int)) : List (ℚ × ℚ) :=
  poly.map (fun v => ((v.1 : ℚ), (v.2 : ℚ)))

/-- One pass of the cv::pointPolygonTest crossing-number loop (OpenCV
shapedescr.cpp, measureDist=false).  The first argument is the query point,
the second the previous vertex v0, the third the remaining vertices, the last
the crossing counter.  Each step either detects that the point lies on the
current edge and returns 0, or updates the counter; at the end the parity of
the counter decides inside (+1) versus outside (-1). -/
def pptGo (p : ℚ × ℚ) : (ℚ × ℚ) → List (ℚ × ℚ) → Nat → Int
  | _, [], counter => if counter % 2 = 0 then -1 else 1
  | v0, v :: rest, counter =>
      if (v0.2 ≤ p.2 ∧ v.2 ≤ p.2) ∨ (p.2 < v0.2 ∧ p.2 < v.2) ∨ (v0.1 < p.1 ∧ v.1 < p.1) then
        if p.2 = v.2 ∧ (p.1 = v.1 ∨ (p.2 = v0.2 ∧
            ((v0.1 ≤ p.1 ∧ p.1 ≤ v.1) ∨ (v.1 ≤ p.1 ∧ p.1 ≤ v0.1)))) then 0
        else pptGo p v rest counter
      else
        if (p.2 - v0.2) * (v.1 - v0.1) - (p.1 - v0.1) * (v.2 - v0.2) = 0 then 0
        else
          pptGo p v rest (counter +
            if 0 < (if v.2 < v0.2
                    then -((p.2 - v0.2) * (v.1 - v0.1) - (p.1 - v0.1) * (v.2 - v0.2))
                    else (p.2 - v0.2) * (v.1 - v0.1) - (p.1 - v0.1) * (v.2 - v0.2))
            then 1 else 0)

/-- Embedding of cv.pointPolygonTest(polygon, pt, False): the loop starts with
the last vertex as the previous vertex and walks every edge.  Result +1 means
strictly positive test (inside), 0 on the contour, -1 outside.  An empty
contour is an OpenCV assertion failure; it is mapped to -1 here and handled
separately where it matters (see countLoop). -/
def pointPolygonTest (poly : List (Int × Int)) (p : ℚ × ℚ) : Int :=
  match (toQPoly poly).getLast? with
  | none => -1
  | some last => pptGo p last (toQPoly poly) 0

/-- Whether one iteration of the pointPolygonTest loop returns 0 for edge
(v0, v): exactly the two early-return conditions of pptGo. -/
def edgeZero (p v0 v : ℚ × ℚ) : Bool :=
  if (v0.2 ≤ p.2 ∧ v.2 ≤ p.2) ∨ (p.2 < v0.2 ∧ p.2 < v.2) ∨ (v0.1 < p.1 ∧ v.1 < p.1) then
    decide (p.2 = v.2 ∧ (p.1 = v.1 ∨ (p.2 = v0.2 ∧
      ((v0.1 ≤ p.1 ∧ p.1 ≤ v.1) ∨ (v.1 ≤ p.1 ∧ p.1 ≤ v0.1)))))
  else
    decide ((p.2 - v0.2) * (v.1 - v0.1) - (p.1 - v0.1) * (v.2 - v0.2) = 0)

/-- Membership of a point on the closed segment from v0 to v: collinearity
together with the bounding box of the segment. -/
def onSegment (v0 v p : ℚ × ℚ) : Prop :=
  (v.1 - v0.1) * (p.2 - v0.2) = (p.1 - v0.1) * (v.2 - v0.2)
  ∧ min v0.1 v.1 ≤ p.1 ∧ p.1 ≤ max v0.1 v.1
  ∧ min v0.2 v.2 ≤ p.2 ∧ p.2 ≤ max v0.2 v.2

instance (v0 v p : ℚ × ℚ) : Decidable (onSegment v0 v p) := by
  unfold onSegment; infer_instance

/-- The edges traversed by pointPolygonTest, as (previous vertex, vertex)
pairs: (last, c0), (c0, c1), ..., in rational coordinates. -/
def pptPairs (poly : List (Int × Int)) : List ((ℚ × ℚ) × (ℚ × ℚ)) :=
  match (toQPoly poly).getLast? with
  | none => []
  | some last => List.zip (last :: toQPoly poly) (toQPoly poly)

/-- A point lies on the boundary of the polygon: it belongs to one of the
closed edge segments the test traverses. -/
def onBoundary (poly : List (Int × Int)) (p : ℚ × ℚ) : Prop :=
  ∃ q ∈ pptPairs poly, onSegment q.1 q.2 p

instance (poly : List (Int × Int)) (p : ℚ × ℚ) : Decidable (onBoundary poly p) := by
  unfold onBoundary; infer_instance

/-- One detection as supervision exposes it after
sv.Detections.from_ultralytics: an xyxy bounding box, a confidence and a
class id.  Coordinates and confidence are modelled as exact rationals. -/
structure Detection where
  x1 : ℚ
  y1 : ℚ
  x2 : ℚ
  y2 : ℚ
  confidence : ℚ
  class_id : Nat

/-- Anchor of a detection: get_anchors_coordinates(anchor=sv.Position.CENTER),
the center of the bounding box (line 191). -/
def anchor (d : Detection) : ℚ × ℚ :=
  ((d.x1 + d.x2) / 2, (d.y1 + d.y2) / 2)

/-- The per-detection membership test of line 192:
cv.pointPolygonTest(polygon, center, False) >= 0. -/
def inZone (poly : List (Int × Int)) (d : Detection) : Bool :=
  decide (0 ≤ pointPolygonTest poly (anchor d))

/-- The filter of line 185: keep detections of class 0 (person) with
confidence strictly above 0.2.  The float literal 0.2 is modelled as the
rational 1/5. -/
def filterDetections (dets : List Detection) : List Detection :=
  dets.filter (fun d => d.class_id == 0 && decide ((1 : ℚ) / 5 < d.confidence))

/-- Resource-release steps observable from capture_image's finally block
(lines 143-159): the hardware handle release and the cross-process (IPC) file
lock release. -/
inductive CamAction where
  | releaseCam : CamAction
  | releaseIpc : CamAction
deriving DecidableEq

/-- Environment of one capture_image call: whether opening the lock file
succeeds (line 113), whether fcntl.flock returns (line 117; a raise is
modelled as false, blocking is invisible here), whether the camera device
opens (line 121), and whether cap.read() yields a frame (line 131). -/
structure CamEnv where
  openLockOk : Bool
  flockOk : Bool
  camOpenOk : Bool
  readOk : Bool

/-- Result of one capture_image call: the returned frame if any (the frame
content is irrelevant to the counts, so it is a unit), the releases performed
by the finally block in order, and whether either lock is still held when the
call returns. -/
structure CaptureResult where
  result : Option Unit
  releases : List CamAction
  ipcLockHeldAfter : Bool
  threadLockHeldAfter : Bool

/-- Embedding of capture_image (lines 105-159), one branch per exit path.
The with-statement releases the in-process camera_lock on every path.  The
finally block releases the opened camera first (only if cap.isOpened(), lines
145-150) and then unlocks and closes the lock file whenever it was opened
(lines 153-159), so the IPC lock is never held on return.  If opening the
lock file itself raises, lock_fd is still None and nothing is released. -/
def capture_image (env : CamEnv) : CaptureResult :=
  if env.openLockOk then
    if env.flockOk then
      if env.camOpenOk then
        if env.readOk then
          { result := some (), releases := [CamAction.releaseCam, CamAction.releaseIpc],
            ipcLockHeldAfter := false, threadLockHeldAfter := false }
        else
          { result := none, releases := [CamAction.releaseCam, CamAction.releaseIpc],
            ipcLockHeldAfter := false, threadLockHeldAfter := false }
      else
        { result := none, releases := [CamAction.releaseIpc],
          ipcLockHeldAfter := false, threadLockHeldAfter := false }
    else
      { result := none, releases := [CamAction.releaseIpc],
        ipcLockHeldAfter := false, threadLockHeldAfter := false }
  else
    { result := none, releases := [],
      ipcLockHeldAfter := false, threadLockHeldAfter := false }

/-- Environment of one count_people call: the capture environment, the state
of the zone-configuration file, and the detector outcome (none models the
model invocation or the supervision post-processing raising, which the outer
handler at lines 216-218 catches). -/
structure CountEnv where
  cam : CamEnv
  doc : ZoneDoc
  detector : Option (List Detection)

/-- The per-zone loop of count_people (lines 188-198), restricted to its
effect on the counts dictionary.  For each zone in order: if there are
detections, each detection's center is tested against the zone polygon and
the zone count becomes the number of members; with no detections the count
is 0.  cv.pointPolygonTest raises on an empty contour, which the outer
handler catches, ending the loop with the counts as assigned so far. -/
def countLoop (dets : List Detection) :
    List (String × List (Int × Int)) → List (String × Nat) → List (String × Nat)
  | [], zc => zc
  | (name, poly) :: rest, zc =>
      if dets.length > 0 then
        if poly = [] then zc
        else countLoop dets rest
          (setAssoc zc name ((dets.filter (fun d => inZone poly d)).length))
      else countLoop dets rest (setAssoc zc name 0)

/-- Embedding of count_people (lines 164-220).  The default fallback counts
are {"A": 0, "B": 0, "C": 0} (line 166); a capture failure returns them
immediately (lines 170-171); otherwise the counts dictionary is rebuilt from
the loaded zone names, falling back to the canonical alphabet when no zones
loaded (line 181); a detector raise is caught by the outer handler and the
counts as last assigned are returned (lines 216-220). -/
def count_people (env : CountEnv) : List (String × Nat) :=
  match (capture_image env.cam).result with
  | none => [("A", 0), ("B", 0), ("C", 0)]
  | some _ =>
    let zones := load_zones env.doc
    let zone_counts := if zones = [] then [("A", 0), ("B", 0), ("C", 0)]
                       else zones.map (fun z => (z.1, 0))
    match env.detector with
    | none => zone_counts
    | some dets0 => countLoop (filterDetections dets0) zones zone_counts

/-- Embedding of the count_people_event handler (lines 234-251).  The second
argument is the outcome of the counting pipeline: some env when it runs to
completion (count_people itself never raises), none when anything inside the
try block raises before the emit, in which case the handler emits the same
payload with results [0, 0, 0] (lines 247-249).  The returned list holds the
emitted (event name, payload) pairs. -/
def count_people_event (data : List (String × Json)) (pipeline : Option CountEnv) :
    List (String × List (String × Json)) :=
  match pipeline with
  | some env =>
      let counts := count_people env
      let results_list := ["A", "B", "C"].map (fun z => (assocLookup counts z).getD 0)
      [("count_people_answer",
        setAssoc data "results" (Json.arr (results_list.map (fun n => Json.num (n : ℚ)))))]
  | none =>
      [("count_people_answer",
        setAssoc data "results" (Json.arr [Json.num 0, Json.num 0, Json.num 0]))]

/-- Seconds slept between connection attempts (line 26). -/
def RETRY_DELAY : Nat := 5

/-- Outcome of one iteration of the main connection loop: sio.connect either
raises (fail) or succeeds, in which case sio.wait() blocks until the server
drops the connection (success). -/
inductive ConnOutcome where
  | fail : ConnOutcome
  | success : ConnOutcome
deriving DecidableEq

/-- Observable events of the main connection loop (lines 267-306). -/
inductive MainEv where
  | announce : MainEv
  | attempt : MainEv
  | connected : MainEv
  | failLogVerbose : MainEv
  | dropLogVerbose : MainEv
  | disconnectCall : MainEv
  | sleep : Nat → MainEv
deriving DecidableEq

/-- One iteration of the while-True loop, given the is_first_failure flag at
the top of the loop and the iteration's outcome.  On a connect failure the
verbose error is printed only when the flag is set, and the flag is cleared
(lines 290-295).  On success the flag is reset to true (line 279); when
sio.wait() returns, the still-set flag makes the disconnection be logged
verbosely and clears the flag (lines 285-288).  The finally block always
calls sio.disconnect(), ignoring its errors (lines 297-303), and the
iteration ends with time.sleep(RETRY_DELAY) (line 306).  Returns the flag for
the next iteration and the iteration's events. -/
def connIter (first : Bool) (o : ConnOutcome) : Bool × List MainEv :=
  match o with
  | ConnOutcome.fail =>
      (false,
        (if first then [MainEv.announce] else [])
        ++ [MainEv.attempt]
        ++ (if first then [MainEv.failLogVerbose] else [])
        ++ [MainEv.disconnectCall, MainEv.sleep RETRY_DELAY])
  | ConnOutcome.success =>
      (false,
        (if first then [MainEv.announce] else [])
        ++ [MainEv.attempt, MainEv.connected, MainEv.dropLogVerbose,
            MainEv.disconnectCall, MainEv.sleep RETRY_DELAY])

/-- Trace of the main connection loop over a finite prefix of iteration
outcomes, starting from a given is_first_failure flag (initially true,
line 267).  The loop itself never exits; a finite outcome list observes a
finite prefix of the infinite run. -/
def connRun : Bool → List ConnOutcome → List MainEv
  | _, [] => []
  | first, o :: rest => (connIter first o).2 ++ connRun (connIter first o).1 rest

lemma assocLookup_setAssoc_self {α : Type} (l : List (String × α)) (k : String) (v : α) :
    assocLookup (setAssoc l k v) k = some v := by
  induction l with
  | nil => simp [setAssoc, assocLookup]
  | cons a rest ih =>
      by_cases h : a.1 = k
      · simp [setAssoc, h, assocLookup]
      · simpa [setAssoc, h, assocLookup] using ih

lemma assocLookup_setAssoc_ne {α : Type} (l : List (String × α)) {k k0 : String} (v : α)
    (h : k0 ≠ k) : assocLookup (setAssoc l k0 v) k = assocLookup l k := by
  induction l with
  | nil => simp [setAssoc, assocLookup, h]
  | cons a rest ih =>
      by_cases ha : a.1 = k0
      · simp [setAssoc, ha, assocLookup, h]
      · by_cases hk : a.1 = k
        · simp [setAssoc, ha, assocLookup, hk, Ne.symm h]
        · simp [setAssoc, ha, assocLookup, hk, ih]

lemma setAssoc_map_fst_of_mem {α : Type} (l : List (String × α)) {k : String} (v : α)
    (h : k ∈ l.map Prod.fst) : (setAssoc l k v).map Prod.fst = l.map Prod.fst := by
  induction l with
  | nil => simp at h
  | cons a rest ih =>
      by_cases ha : a.1 = k
      · simp [setAssoc, ha]
      · have hrest : k ∈ rest.map Prod.fst := by
          rcases List.mem_map.1 h with ⟨b, hb, hbk⟩
          rcases List.mem_cons.1 hb with hb1 | hb1
          · exact absurd (by rw [hb1] at hbk; exact hbk) ha
          · exact hbk ▸ List.mem_map_of_mem Prod.fst hb1
        simp [setAssoc, ha, ih hrest]

lemma eraseKey_setAssoc {α : Type} (l : List (String × α)) (k : String) (v : α) :
    eraseKey (setAssoc l k v) k = eraseKey l k := by
  induction l with
  | nil => simp [setAssoc, eraseKey]
  | cons a rest ih =>
      by_cases h : a.1 = k
      · simp [setAssoc, h, eraseKey, List.filter]
      · simpa [setAssoc, h, eraseKey, List.filter] using ih

lemma mapOption_eq_none_of_mem {α β : Type} {f : α → Option β} {l : List α} {a : α}
    (ha : a ∈ l) (hf : f a = none) : mapOption f l = none := by
  induction l with
  | nil => simp at ha
  | cons b rest ih =>
      rcases List.mem_cons.1 ha with h | h
      · subst h; simp [mapOption, hf]
      · cases hb : f b with
        | none => simp [mapOption, hb]
        | some _ => simp [mapOption, hb, ih h]

lemma countLoop_lookup_not_mem (dets : List Detection) :
    ∀ (zones : List (String × List (Int × Int))) (zc : List (String × Nat)) (name : String),
    name ∉ zones.map Prod.fst →
    assocLookup (countLoop dets zones zc) name = assocLookup zc name := by
  intro zones
  induction zones with
  | nil => intro zc name _; rfl
  | cons z rest ih =>
      intro zc name hname
      obtain ⟨k0, p0⟩ := z
      have hne : k0 ≠ name := by
        intro hk; exact hname (by simp [hk])
      have hrest : name ∉ rest.map Prod.fst := by
        intro hm; exact hname (by simp [hm])
      by_cases hd : dets.length > 0
      · by_cases hp : p0 = []
        · simp [countLoop, hd, hp]
        · simp only [countLoop, if_pos hd, if_neg hp]
          rw [ih _ name hrest, assocLookup_setAssoc_ne _ _ hne]
      · simp only [countLoop, if_neg hd]
        rw [ih _ name hrest, assocLookup_setAssoc_ne _ _ hne]

lemma countLoop_lookup (dets : List Detection) :
    ∀ (zones : List (String × List (Int × Int))) (zc : List (String × Nat))
      (name : String) (poly : List (Int × Int)),
    (zones.map Prod.fst).Nodup →
    (name, poly) ∈ zones →
    (dets = [] ∨ ∀ z ∈ zones, z.2 ≠ []) →
    assocLookup (countLoop dets zones zc) name =
      some ((dets.filter (fun d => inZone poly d)).length) := by
  intro zones
  induction zones with
  | nil => intro zc name poly _ hmem _; simp at hmem
  | cons z rest ih =>
      intro zc name poly hnd hmem hne
      obtain ⟨k0, p0⟩ := z
      have hnd' : k0 ∉ rest.map Prod.fst ∧ (rest.map Prod.fst).Nodup := by
        rw [List.map_cons] at hnd; exact List.nodup_cons.1 hnd
      have hnd0 : k0 ∉ rest.map Prod.fst := hnd'.1
      have hndrest : (rest.map Prod.fst).Nodup := hnd'.2
      have hnerest : dets = [] ∨ ∀ z ∈ rest, z.2 ≠ [] := by
        rcases hne with h | h
        · exact Or.inl h
        · exact Or.inr (fun z hz => h z (List.mem_cons_of_mem _ hz))
      rcases List.mem_cons.1 hmem with hhead | htail
      · injection hhead with hk hp
        subst hk; subst hp
        by_cases hd : dets.length > 0
        · have hpne : poly ≠ [] := by
            rcases hne with h | h
            · subst h; simp at hd
            · exact h (name, poly) (List.mem_cons_self _ _)
          simp only [countLoop, if_pos hd, if_neg hpne]
          rw [countLoop_lookup_not_mem dets rest _ name hnd0, assocLookup_setAssoc_self]
        · have hdnil : dets = [] := by
            cases dets with
            | nil => rfl
            | cons a l => simp at hd
          subst hdnil
          simp only [countLoop, if_neg hd]
          rw [countLoop_lookup_not_mem [] rest _ name hnd0, assocLookup_setAssoc_self]
          simp
      · have hnk : k0 ≠ name := by
          intro hk
          exact hnd0 (hk ▸ List.mem_map_of_mem Prod.fst htail)
        by_cases hd : dets.length > 0
        · have hpne : p0 ≠ [] := by
            rcases hne with h | h
            · subst h; simp at hd
            · exact h (k0, p0) (List.mem_cons_self _ _)
          simp only [countLoop, if_pos hd, if_neg hpne]
          exact ih _ name poly hndrest htail hnerest
        · simp only [countLoop, if_neg hd]
          exact ih _ name poly hndrest htail hnerest

lemma countLoop_map_fst (dets : List Detection) :
    ∀ (zones : List (String × List (Int × Int))) (zc : List (String × Nat)),
    (∀ z ∈ zones, z.1 ∈ zc.map Prod.fst) →
    (countLoop dets zones zc).map Prod.fst = zc.map Prod.fst := by
  intro zones
  induction zones with
  | nil => intro zc _; rfl
  | cons z rest ih =>
      intro zc hz
      obtain ⟨k0, p0⟩ := z
      have hk0 : k0 ∈ zc.map Prod.fst := hz (k0, p0) (List.mem_cons_self _ _)
      have hkeys : (setAssoc zc k0 ((dets.filter (fun d => inZone p0 d)).length)).map Prod.fst
          = zc.map Prod.fst := setAssoc_map_fst_of_mem zc _ hk0
      have hkeys0 : (setAssoc zc k0 0).map Prod.fst = zc.map Prod.fst :=
        setAssoc_map_fst_of_mem zc _ hk0
      by_cases hd : dets.length > 0
      · by_cases hp : p0 = []
        · simp [countLoop, hd, hp]
        · simp only [countLoop, if_pos hd, if_neg hp]
          rw [ih _ (fun z hzr => by rw [hkeys]; exact hz z (List.mem_cons_of_mem _ hzr)), hkeys]
      · simp only [countLoop, if_neg hd]
        rw [ih _ (fun z hzr => by rw [hkeys0]; exact hz z (List.mem_cons_of_mem _ hzr)), hkeys0]

lemma pptGo_cons_eq (p v0 v : ℚ × ℚ) (rest : List (ℚ × ℚ)) (c : Nat) :
    pptGo p v0 (v :: rest) c =
      if (v0.2 ≤ p.2 ∧ v.2 ≤ p.2) ∨ (p.2 < v0.2 ∧ p.2 < v.2) ∨ (v0.1 < p.1 ∧ v.1 < p.1) then
        if p.2 = v.2 ∧ (p.1 = v.1 ∨ (p.2 = v0.2 ∧
            ((v0.1 ≤ p.1 ∧ p.1 ≤ v.1) ∨ (v.1 ≤ p.1 ∧ p.1 ≤ v0.1)))) then 0
        else pptGo p v rest c
      else
        if (p.2 - v0.2) * (v.1 - v0.1) - (p.1 - v0.1) * (v.2 - v0.2) = 0 then 0
        else
          pptGo p v rest (c +
            if 0 < (if v.2 < v0.2
                    then -((p.2 - v0.2) * (v.1 - v0.1) - (p.1 - v0.1) * (v.2 - v0.2))
                    else (p.2 - v0.2) * (v.1 - v0.1) - (p.1 - v0.1) * (v.2 - v0.2))
            then 1 else 0) := rfl

lemma pptGo_zero_of_edgeZero (p v0 v : ℚ × ℚ) (rest : List (ℚ × ℚ)) (c : Nat)
    (h : edgeZero p v0 v = true) : pptGo p v0 (v :: rest) c = 0 := by
  rw [pptGo_cons_eq]
  unfold edgeZero at h
  by_cases h1 : (v0.2 ≤ p.2 ∧ v.2 ≤ p.2) ∨ (p.2 < v0.2 ∧ p.2 < v.2) ∨ (v0.1 < p.1 ∧ v.1 < p.1)
  · rw [if_pos h1] at h ⊢
    rw [if_pos (of_decide_eq_true h)]
  · rw [if_neg h1] at h ⊢
    rw [if_pos (of_decide_eq_true h)]

lemma pptGo_step_of_not_edgeZero (p v0 v : ℚ × ℚ) (rest : List (ℚ × ℚ)) (c : Nat)
    (h : edgeZero p v0 v = false) :
    ∃ c2, pptGo p v0 (v :: rest) c = pptGo p v rest c2 := by
  rw [pptGo_cons_eq]
  unfold edgeZero at h
  by_cases h1 : (v0.2 ≤ p.2 ∧ v.2 ≤ p.2) ∨ (p.2 < v0.2 ∧ p.2 < v.2) ∨ (v0.1 < p.1 ∧ v.1 < p.1)
  · rw [if_pos h1] at h ⊢
    rw [if_neg (of_decide_eq_false h)]
    exact ⟨c, rfl⟩
  · rw [if_neg h1] at h ⊢
    rw [if_neg (of_decide_eq_false h)]
    exact ⟨_, rfl⟩

lemma pptGo_zero_of_trigger (p : ℚ × ℚ) :
    ∀ (l : List (ℚ × ℚ)) (v : ℚ × ℚ) (c : Nat),
    (∃ q ∈ List.zip (v :: l) l, edgeZero p q.1 q.2 = true) → pptGo p v l c = 0 := by
  intro l
  induction l with
  | nil =>
      intro v c h
      rcases h with ⟨q, hq, _⟩
      simp [List.zip] at hq
  | cons v1 rest ih =>
      intro v c h
      rcases h with ⟨q, hq, hz⟩
      rw [List.zip_cons_cons] at hq
      cases hb : edgeZero p v v1 with
      | true => exact pptGo_zero_of_edgeZero p v v1 rest c hb
      | false =>
          obtain ⟨c2, hstep⟩ := pptGo_step_of_not_edgeZero p v v1 rest c hb
          rw [hstep]
          rcases List.mem_cons.1 hq with hq1 | hq1
          · rw [hq1] at hz; rw [hz] at hb; cases hb
          · exact ih v1 c2 ⟨q, hq1, hz⟩

lemma edgeZero_self (v0 v : ℚ × ℚ) : edgeZero v v0 v = true := by
  unfold edgeZero
  split_ifs with h1
  · exact decide_eq_true ⟨rfl, Or.inl rfl⟩
  · refine decide_eq_true ?_; ring

lemma onSegment_cases (v0 v p : ℚ × ℚ) (h : onSegment v0 v p) :
    p = v0 ∨ edgeZero p v0 v = true := by
  obtain ⟨hcol, hx1, hx2, hy1, hy2⟩ := h
  unfold edgeZero
  split_ifs with hC
  · rcases hC with ⟨h1, h2⟩ | ⟨h1, h2⟩ | ⟨h1, h2⟩
    · have hpy : p.2 = max v0.2 v.2 := le_antisymm hy2 (max_le h1 h2)
      by_cases hvy : v0.2 = v.2
      · right
        have hp2v : p.2 = v.2 := by rw [hpy, hvy, max_self]
        refine decide_eq_true ⟨hp2v, Or.inr ⟨by rw [hp2v, hvy], ?_⟩⟩
        rcases le_total v0.1 v.1 with hle | hle
        · exact Or.inl ⟨min_eq_left hle ▸ hx1, max_eq_right hle ▸ hx2⟩
        · exact Or.inr ⟨min_eq_right hle ▸ hx1, max_eq_left hle ▸ hx2⟩
      · rcases lt_or_gt_of_ne hvy with hlt | hgt
        · right
          have hp2 : p.2 = v.2 := by rw [hpy, max_eq_right hlt.le]
          have hne : v.2 - v0.2 ≠ 0 := sub_ne_zero.2 hlt.ne'
          have hp1 : p.1 = v.1 := by
            have hc2 := hcol
            rw [hp2] at hc2
            have := mul_right_cancel₀ hne hc2
            linarith
          exact decide_eq_true ⟨hp2, Or.inl hp1⟩
        · left
          have hp2 : p.2 = v0.2 := by rw [hpy, max_eq_left hgt.le]
          have hne : v.2 - v0.2 ≠ 0 := sub_ne_zero.2 (ne_of_lt hgt)
          have hp1 : p.1 = v0.1 := by
            have hz : (p.1 - v0.1) * (v.2 - v0.2) = 0 := by
              rw [← hcol, hp2]; ring
            rcases mul_eq_zero.1 hz with hz1 | hz1
            · linarith [sub_eq_zero.1 hz1]
            · exact absurd hz1 hne
          exact Prod.ext hp1 hp2
    · exact absurd (lt_min h1 h2) (not_lt.2 hy1)
    · exact absurd (max_lt h1 h2) (not_lt.2 hx2)
  · right
    refine decide_eq_true ?_
    linear_combination hcol

lemma mem_zip_snd {α : Type} : ∀ (l : List α) (v x : α), x ∈ l →
    ∃ q ∈ List.zip (v :: l) l, q.2 = x := by
  intro l
  induction l with
  | nil => intro v x hx; simp at hx
  | cons a t ih =>
      intro v x hx
      rcases List.mem_cons.1 hx with h | h
      · refine ⟨(v, a), ?_, h.symm⟩
        rw [List.zip_cons_cons]
        exact List.mem_cons_self _ _
      · obtain ⟨q, hq, hq2⟩ := ih a x h
        refine ⟨q, ?_, hq2⟩
        rw [List.zip_cons_cons]
        exact List.mem_cons_of_mem _ hq

lemma pointPolygonTest_eq_zero_of_onBoundary (poly : List (Int × Int)) (p : ℚ × ℚ)
    (h : onBoundary poly p) : pointPolygonTest poly p = 0 := by
  obtain ⟨q, hq, hseg⟩ := h
  unfold pptPairs at hq
  unfold pointPolygonTest
  cases hlast : (toQPoly poly).getLast? with
  | none => rw [hlast] at hq; simp at hq
  | some last =>
      rw [hlast] at hq
      rcases onSegment_cases q.1 q.2 p hseg with hpv | htrig
      · -- p coincides with the edge's first endpoint, hence with some vertex;
        -- that vertex occurs as the second endpoint of another edge, which triggers
        have hqpair : (q.1, q.2) ∈ List.zip (last :: toQPoly poly) (toQPoly poly) := by
          simpa using hq
        have hq1mem : q.1 ∈ last :: toQPoly poly := (List.of_mem_zip hqpair).1
        have hpl : p ∈ toQPoly poly := by
          rcases List.mem_cons.1 hq1mem with hh | hh
          · rw [hpv, hh]
            exact List.mem_of_getLast?_eq_some hlast
          · rw [hpv]; exact hh
        obtain ⟨q2, hq2, hq2x⟩ := mem_zip_snd (toQPoly poly) last p hpl
        apply pptGo_zero_of_trigger
        refine ⟨q2, hq2, ?_⟩
        rw [hq2x]
        exact edgeZero_self q2.1 p
      · exact pptGo_zero_of_trigger p (toQPoly poly) last 0 ⟨q, hq, htrig⟩

lemma connIter_flag (first : Bool) (o : ConnOutcome) : (connIter first o).1 = false := by
  cases o <;> rfl

lemma connRun_cons (first : Bool) (o : ConnOutcome) (rest : List ConnOutcome) :
    connRun first (o :: rest) = (connIter first o).2 ++ connRun false rest := by
  have : connRun first (o :: rest) = (connIter first o).2 ++ connRun (connIter first o).1 rest := rfl
  rw [this, connIter_flag]

/-- Predicate used to state that every sleep in a trace is the fixed
RETRY_DELAY (no backoff). -/
def sleepIsRetryDelay : MainEv → Bool
  | MainEv.sleep m => m == RETRY_DELAY
  | _ => true

lemma connIter_count_attempt (first : Bool) (o : ConnOutcome) :
    (connIter first o).2.count MainEv.attempt = 1 := by
  cases first <;> cases o <;> decide

lemma connRun_count_attempt : ∀ (outs : List ConnOutcome) (first : Bool),
    (connRun first outs).count MainEv.attempt = outs.length := by
  intro outs
  induction outs with
  | nil => intro first; rfl
  | cons o rest ih =>
      intro first
      rw [connRun_cons, List.count_append, connIter_count_attempt, ih]
      simp [Nat.add_comm]

lemma connRun_all_sleeps : ∀ (outs : List ConnOutcome) (first : Bool),
    (connRun first outs).all sleepIsRetryDelay = true := by
  intro outs
  induction outs with
  | nil => intro first; rfl
  | cons o rest ih =>
      intro first
      rw [connRun_cons, List.all_append, Bool.and_eq_true]
      exact ⟨by cases first <;> cases o <;> decide, ih false⟩

lemma connRun_false_counts (n : Nat) :
    (connRun false (List.replicate n ConnOutcome.fail ++ [ConnOutcome.success])).count
        MainEv.attempt = n + 1
    ∧ (connRun false (List.replicate n ConnOutcome.fail ++ [ConnOutcome.success])).count
        MainEv.failLogVerbose = 0
    ∧ (connRun false (List.replicate n ConnOutcome.fail ++ [ConnOutcome.success])).count
        MainEv.disconnectCall = n + 1
    ∧ (connRun false (List.replicate n ConnOutcome.fail ++ [ConnOutcome.success])).count
        (MainEv.sleep RETRY_DELAY) = n + 1
    ∧ (connRun false (List.replicate n ConnOutcome.fail ++ [ConnOutcome.success])).count
        MainEv.dropLogVerbose = 1 := by
  induction n with
  | zero => decide
  | succ m ih =>
      obtain ⟨i1, i2, i3, i4, i5⟩ := ih
      have hrepl : List.replicate (m + 1) ConnOutcome.fail ++ [ConnOutcome.success]
          = ConnOutcome.fail :: (List.replicate m ConnOutcome.fail ++ [ConnOutcome.success]) := by
        simp [List.replicate_succ]
      rw [hrepl, connRun_cons]
      have c1 : (connIter false ConnOutcome.fail).2.count MainEv.attempt = 1 := by decide
      have c2 : (connIter false ConnOutcome.fail).2.count MainEv.failLogVerbose = 0 := by decide
      have c3 : (connIter false ConnOutcome.fail).2.count MainEv.disconnectCall = 1 := by decide
      have c4 : (connIter false ConnOutcome.fail).2.count (MainEv.sleep RETRY_DELAY) = 1 := by
        decide
      have c5 : (connIter false ConnOutcome.fail).2.count MainEv.dropLogVerbose = 0 := by decide
      refine ⟨?_, ?_, ?_, ?_, ?_⟩ <;>
        rw [List.count_append]
      · rw [c1, i1]; omega
      · rw [c2, i2]
      · rw [c3, i3]; omega
      · rw [c4, i4]; omega
      · rw [c5, i5]

/-- JSON encoding of one zone point, as the configuration tool writes it. -/
def jpt (x y : Int) : Json :=
  Json.obj [("x", Json.num (x : ℚ)), ("y", Json.num (y : ℚ))]

/-- Unit test polygon: the axis-aligned square with corners (0,0) and (10,10). -/
def sqA : List (Int × Int) := [(0, 0), (10, 0), (10, 10), (0, 10)]

/-- A second square sharing the whole edge x = 10 with sqA. -/
def sqB : List (Int × Int) := [(10, 0), (20, 0), (20, 10), (10, 10)]

/-- A zone document holding the two edge-sharing squares. -/
def cexDoc : ZoneDoc := ZoneDoc.parsed (Json.obj
  [("A", Json.arr [jpt 0 0, jpt 10 0, jpt 10 10, jpt 0 10]),
   ("B", Json.arr [jpt 10 0, jpt 20 0, jpt 20 10, jpt 10 10])])

/-- A capture environment in which every step succeeds. -/
def camOk : CamEnv := { openLockOk := true, flockOk := true, camOpenOk := true, readOk := true }

/-- A detection whose bounding-box center (10, 5) lies exactly on the edge
shared by sqA and sqB. -/
def dShared : Detection :=
  { x1 := 8, y1 := 0, x2 := 12, y2 := 10, confidence := 1, class_id := 0 }

/-- Counting environment with the two edge-sharing squares and the single
detection anchored on their shared edge. -/
def cexEnv : CountEnv := { cam := camOk, doc := cexDoc, detector := some [dShared] }

/-- Counting environment whose zone document defines a single zone "D" not in
the canonical alphabet. -/
def envD : CountEnv :=
  { cam := camOk,
    doc := ZoneDoc.parsed (Json.obj [("D", Json.arr [jpt 0 0, jpt 10 0, jpt 0 10])]),
    detector := some [] }

/-- C4.  For every input path state, load_zones never raises — it is embedded
as a total function — and whenever the file is missing, unreadable, or its
content malformed (not valid JSON, or not an object of arrays of numeric
x/y points), it returns the empty zone mapping. -/
theorem C4_load_zones_total_malformed_empty (doc : ZoneDoc)
    (h : ∀ j, doc = ZoneDoc.parsed j → zonesWellFormed j = false) :
    load_zones doc = [] := by
  cases doc with
  | missing => rfl
  | unreadable => rfl
  | invalidJson => rfl
  | parsed j =>
      have hj := h j rfl
      cases j with
      | null => rfl
      | bool b => rfl
      | num q => rfl
      | arr l => rfl
      | obj entries =>
          simp only [zonesWellFormed] at hj
          obtain ⟨e, he, hne⟩ := List.all_eq_false.1 hj
          have hnone : parsePoints e.2 = none := by
            cases hp : parsePoints e.2 with
            | none => rfl
            | some _ => exact absurd (by simp [hp]) hne
          have hz : parseZone e = none := by simp [parseZone, hnone]
          show (mapOption parseZone entries).getD [] = []
          rw [mapOption_eq_none_of_mem he hz]
          rfl

/-- Witness for C4 at a concrete malformed document (a bare number). -/
theorem C4_witness : load_zones (ZoneDoc.parsed (Json.num 3)) = [] :=
  C4_load_zones_total_malformed_empty _ (fun j hj => by cases hj; rfl)

/-- C3.  Whenever frame capture fails, count_people returns the all-zero
counts for the canonical zone alphabet (line 166 and 170-171), and the
cross-process camera lock is not held after capture_image returns, so a
second caller can acquire it immediately. -/
theorem C3_capture_failure_zero_counts (env : CountEnv)
    (h : (capture_image env.cam).result = none) :
    count_people env = [("A", 0), ("B", 0), ("C", 0)]
    ∧ (capture_image env.cam).ipcLockHeldAfter = false := by
  constructor
  · simp [count_people, h]
  · obtain ⟨⟨o, f, c, r⟩, doc, det⟩ := env
    cases o <;> cases f <;> cases c <;> cases r <;> rfl

/-- Witness for C3: with a read failure the counts are the canonical zeros
and the IPC lock is free. -/
theorem C3_witness :
    count_people { cam := { openLockOk := true, flockOk := true, camOpenOk := true,
                            readOk := false }, doc := ZoneDoc.missing, detector := none }
      = [("A", 0), ("B", 0), ("C", 0)]
    ∧ (capture_image { openLockOk := true, flockOk := true, camOpenOk := true,
                       readOk := false }).ipcLockHeldAfter = false :=
  C3_capture_failure_zero_counts _ rfl

/-- C6.  On every exit path of capture_image the releases performed by the
finally block are: the camera handle exactly when the device was opened,
followed by the cross-process lock whenever the lock file was opened — the
hardware handle always strictly before the lock — and neither the IPC lock
nor the in-process thread lock is held on return. -/
theorem C6_capture_release_order (env : CamEnv) :
    (capture_image env).releases =
      (if env.openLockOk && env.flockOk && env.camOpenOk
       then [CamAction.releaseCam] else [])
      ++ (if env.openLockOk then [CamAction.releaseIpc] else [])
    ∧ (capture_image env).ipcLockHeldAfter = false
    ∧ (capture_image env).threadLockHeldAfter = false := by
  obtain ⟨o, f, c, r⟩ := env
  cases o <;> cases f <;> cases c <;> cases r <;> exact ⟨rfl, rfl, rfl⟩

/-- C10.  If opening the lock file or acquiring the cross-process flock
itself raises, capture_image returns None — the failure is treated as a
capture failure and count_people yields the all-zero fallback counts — and
the in-process thread lock is released. -/
theorem C10_lock_failure_is_capture_failure (cam : CamEnv) (doc : ZoneDoc)
    (det : Option (List Detection))
    (h : cam.openLockOk = false ∨ cam.flockOk = false) :
    (capture_image cam).result = none
    ∧ (capture_image cam).threadLockHeldAfter = false
    ∧ count_people { cam := cam, doc := doc, detector := det }
        = [("A", 0), ("B", 0), ("C", 0)] := by
  obtain ⟨o, f, c, r⟩ := cam
  have hr : (capture_image ⟨o, f, c, r⟩).result = none := by
    rcases h with h | h
    · simp only at h; subst h; rfl
    · simp only at h; subst h; cases o <;> rfl
  refine ⟨hr, ?_, ?_⟩
  · cases o <;> cases f <;> cases c <;> cases r <;> rfl
  · simp [count_people, hr]

/-- Witness for C10 at a concrete environment in which opening the lock file
raises. -/
theorem C10_witness :
    (capture_image { openLockOk := false, flockOk := true, camOpenOk := true,
                     readOk := true }).result = none
    ∧ (capture_image { openLockOk := false, flockOk := true, camOpenOk := true,
                       readOk := true }).threadLockHeldAfter = false
    ∧ count_people { cam := { openLockOk := false, flockOk := true, camOpenOk := true,
                              readOk := true }, doc := ZoneDoc.missing, detector := none }
        = [("A", 0), ("B", 0), ("C", 0)] :=
  C10_lock_failure_is_capture_failure _ _ _ (Or.inl rfl)

/-- C5.  The membership test of line 192 counts a detection exactly when the
polygon test is non-strict (greater or equal 0): a strictly positive test
(strictly inside) is counted, a strictly negative test (strictly outside) is
not, and an anchor lying exactly on an edge of the polygon makes the test
return 0 and is therefore counted as inside. -/
theorem C5_boundary_inclusive (poly : List (Int × Int)) (d : Detection) :
    (0 < pointPolygonTest poly (anchor d) → inZone poly d = true)
    ∧ (pointPolygonTest poly (anchor d) < 0 → inZone poly d = false)
    ∧ (onBoundary poly (anchor d) →
        pointPolygonTest poly (anchor d) = 0 ∧ inZone poly d = true) := by
  refine ⟨?_, ?_, ?_⟩
  · intro h; exact decide_eq_true (le_of_lt h)
  · intro h; exact decide_eq_false (not_le.2 h)
  · intro h
    have h0 := pointPolygonTest_eq_zero_of_onBoundary poly (anchor d) h
    exact ⟨h0, decide_eq_true (by simp [h0])⟩

/-- Witness for C5: on the square sqA, a detection centered at (5,5) is
counted, one centered at (50,5) is not, and one centered on the edge through
(10,5) tests 0 and is counted. -/
theorem C5_witness :
    inZone sqA { x1 := 3, y1 := 3, x2 := 7, y2 := 7, confidence := 1, class_id := 0 } = true
    ∧ inZone sqA { x1 := 48, y1 := 3, x2 := 52, y2 := 7, confidence := 1, class_id := 0 } = false
    ∧ (pointPolygonTest sqA (anchor dShared) = 0 ∧ inZone sqA dShared = true) := by
  have h1 : 0 < pointPolygonTest sqA
      (anchor { x1 := 3, y1 := 3, x2 := 7, y2 := 7, confidence := 1, class_id := 0 }) := by
    norm_num [pointPolygonTest, toQPoly, pptGo, sqA, anchor]
  have h2 : pointPolygonTest sqA
      (anchor { x1 := 48, y1 := 3, x2 := 52, y2 := 7, confidence := 1, class_id := 0 }) < 0 := by
    norm_num [pointPolygonTest, toQPoly, pptGo, sqA, anchor]
  have hb : onBoundary sqA (anchor dShared) := by
    refine ⟨(((10 : ℚ), (0 : ℚ)), ((10 : ℚ), (10 : ℚ))), ?_, ?_⟩
    · norm_num [pptPairs, toQPoly, sqA]
    · norm_num [onSegment, anchor, dShared]
  exact ⟨(C5_boundary_inclusive sqA _).1 h1,
         (C5_boundary_inclusive sqA _).2.1 h2,
         (C5_boundary_inclusive sqA dShared).2.2 hb⟩

lemma coordOf_int (x : Int) : coordOf (Json.num (x : ℚ)) = some x := by
  simp [coordOf, Int.tdiv_one]

lemma parsePoint_jpt (x y : Int) : parsePoint (jpt x y) = some (x, y) := by
  simp [parsePoint, jpt, assocLookup, coordOf_int]

lemma load_zones_cexDoc : load_zones cexDoc = [("A", sqA), ("B", sqB)] := by
  simp [load_zones, cexDoc, mapOption, parseZone, parsePoints, parsePoint_jpt, sqA, sqB]

lemma inZone_eval_true {poly : List (Int × Int)} {d : Detection}
    (h : 0 ≤ pointPolygonTest poly (anchor d)) : inZone poly d = true := decide_eq_true h

lemma inZone_sqA_dShared : inZone sqA dShared = true :=
  inZone_eval_true (by norm_num [pointPolygonTest, toQPoly, pptGo, sqA, anchor, dShared])

lemma inZone_sqB_dShared : inZone sqB dShared = true :=
  inZone_eval_true (by norm_num [pointPolygonTest, toQPoly, pptGo, sqB, anchor, dShared])

lemma filterDetections_dShared : filterDetections [dShared] = [dShared] := by
  norm_num [filterDetections, dShared, List.filter]

lemma onBoundary_sqA_dShared : onBoundary sqA (anchor dShared) := by
  refine ⟨(((10 : ℚ), (0 : ℚ)), ((10 : ℚ), (10 : ℚ))), ?_, ?_⟩
  · norm_num [pptPairs, toQPoly, sqA]
  · norm_num [onSegment, anchor, dShared]

lemma onBoundary_sqB_dShared : onBoundary sqB (anchor dShared) := by
  refine ⟨(((10 : ℚ), (10 : ℚ)), ((10 : ℚ), (0 : ℚ))), ?_, ?_⟩
  · norm_num [pptPairs, toQPoly, sqB]
  · norm_num [onSegment, anchor, dShared]

/-- Counterexample to C2 as stated: in the environment cexEnv the zones "A"
and "B" share the whole edge x = 10, the single detection's anchor (10, 5)
lies on the boundary of both polygons, and count_people counts it in BOTH
zones — not only in the first zone tested. -/
theorem C2_counterexample :
    count_people cexEnv = [("A", 1), ("B", 1)]
    ∧ onBoundary sqA (anchor dShared)
    ∧ onBoundary sqB (anchor dShared) := by
  refine ⟨?_, onBoundary_sqA_dShared, onBoundary_sqB_dShared⟩
  have hcap : (capture_image camOk).result = some () := rfl
  simp only [count_people, cexEnv, hcap, load_zones_cexDoc, filterDetections_dShared]
  have hsA : ¬(sqA = []) := by simp [sqA]
  have hsB : ¬(sqB = []) := by simp [sqB]
  simp [countLoop, hsA, hsB, inZone_sqA_dShared, inZone_sqB_dShared, setAssoc]

/-- C2 amended: the classifier tests each zone independently, so each loaded
zone's final count is the number of filtered detections whose anchor passes
that zone's own boundary-inclusive test; consequently a detection whose
anchor lies on an edge shared by two zones is counted in both of them, and a
detection can belong to more than one zone. -/
theorem C2_amended_independent_zone_tests :
    (∀ (cam : CamEnv) (doc : ZoneDoc) (dets0 : List Detection)
       (name : String) (poly : List (Int × Int)),
      (capture_image cam).result.isSome = true →
      ((load_zones doc).map Prod.fst).Nodup →
      (name, poly) ∈ load_zones doc →
      (∀ z ∈ load_zones doc, z.2 ≠ []) →
      assocLookup (count_people { cam := cam, doc := doc, detector := some dets0 }) name =
        some (((filterDetections dets0).filter (fun d => inZone poly d)).length))
    ∧ (∀ (poly1 poly2 : List (Int × Int)) (d : Detection),
        onBoundary poly1 (anchor d) → onBoundary poly2 (anchor d) →
        inZone poly1 d = true ∧ inZone poly2 d = true) := by
  constructor
  · intro cam doc dets0 name poly hcap hnd hmem hne
    obtain ⟨u, hu⟩ := Option.isSome_iff_exists.1 hcap
    have hzne : ¬(load_zones doc = []) := by
      intro h; rw [h] at hmem; simp at hmem
    simp only [count_people, hu, if_neg hzne]
    exact countLoop_lookup (filterDetections dets0) (load_zones doc) _ name poly
      hnd hmem (Or.inr hne)
  · intro poly1 poly2 d h1 h2
    exact ⟨inZone_eval_true (le_of_eq
            (pointPolygonTest_eq_zero_of_onBoundary poly1 (anchor d) h1).symm),
           inZone_eval_true (le_of_eq
            (pointPolygonTest_eq_zero_of_onBoundary poly2 (anchor d) h2).symm)⟩

/-- Witness for the amended C2 at the concrete shared-edge environment: the
lookup formula yields count 1 for zone "A", and the shared-edge detection is
inside both polygons. -/
theorem C2_amended_witness :
    assocLookup (count_people cexEnv) "A" = some 1
    ∧ inZone sqA dShared = true ∧ inZone sqB dShared = true := by
  constructor
  · have h := C2_amended_independent_zone_tests.1 camOk cexDoc [dShared] "A" sqA
      rfl
      (by rw [load_zones_cexDoc]; simp)
      (by rw [load_zones_cexDoc]; simp)
      (by rw [load_zones_cexDoc]; intro z hz; fin_cases hz <;> simp [sqA, sqB])
    rw [show ({ cam := camOk, doc := cexDoc, detector := some [dShared] } : CountEnv)
          = cexEnv from rfl] at h
    rw [h, filterDetections_dShared]
    simp [List.filter, inZone_sqA_dShared]
  · exact C2_amended_independent_zone_tests.2 sqA sqB dShared
      onBoundary_sqA_dShared onBoundary_sqB_dShared

lemma load_zones_envD :
    load_zones (ZoneDoc.parsed (Json.obj [("D", Json.arr [jpt 0 0, jpt 10 0, jpt 0 10])]))
      = [("D", [(0, 0), (10, 0), (0, 10)])] := by
  simp [load_zones, mapOption, parseZone, parsePoints, parsePoint_jpt]

/-- Counterexample to C1 as stated: with a well-formed zone document whose
only zone is named "D", capture succeeding and the detector returning no
detections, count_people returns a mapping whose keys are exactly ["D"] — it
does not cover the canonical alphabet, since "A", "B" and "C" are all
absent. -/
theorem C1_counterexample :
    count_people envD = [("D", 0)]
    ∧ assocLookup (count_people envD) "A" = none
    ∧ assocLookup (count_people envD) "B" = none
    ∧ assocLookup (count_people envD) "C" = none := by
  have hcap : (capture_image camOk).result = some () := rfl
  have h : count_people envD = [("D", 0)] := by
    simp only [count_people, envD, hcap, load_zones_envD]
    simp [countLoop, filterDetections, List.filter, setAssoc]
  refine ⟨h, ?_, ?_, ?_⟩ <;> rw [h] <;> simp [assocLookup]

/-- C1 amended: count_people always terminates (it is a total function) and
returns a mapping all of whose values are non-negative; its key set is the
canonical alphabet ["A", "B", "C"] when capture fails or no zones load, and
otherwise it is exactly the loaded zone names — which cover the canonical
alphabet only when the document happens to define those zones. -/
theorem C1_amended_total_keys (env : CountEnv) :
    ((count_people env).all (fun kv => decide (0 ≤ kv.2)) = true)
    ∧ ((count_people env).map Prod.fst = ["A", "B", "C"]
       ∨ (count_people env).map Prod.fst = (load_zones env.doc).map Prod.fst) := by
  constructor
  · rw [List.all_eq_true]
    intro kv _
    exact decide_eq_true (Nat.zero_le _)
  · cases hc : (capture_image env.cam).result with
    | none => left; simp [count_people, hc]
    | some u =>
        by_cases hz : load_zones env.doc = []
        · left
          cases hd : env.detector with
          | none => simp [count_people, hc, hz, hd]
          | some dets0 => simp [count_people, hc, hz, hd, countLoop]
        · right
          have hkeys : ((load_zones env.doc).map
                (fun z => (z.1, (0 : Nat)))).map Prod.fst
              = (load_zones env.doc).map Prod.fst := by
            simp [List.map_map, Function.comp]
          cases hd : env.detector with
          | none =>
              simp only [count_people, hc, if_neg hz, hd]
              exact hkeys
          | some dets0 =>
              simp only [count_people, hc, if_neg hz, hd]
              rw [countLoop_map_fst (filterDetections dets0) (load_zones env.doc) _
                   (fun z hz2 => by rw [hkeys]; exact List.mem_map_of_mem Prod.fst hz2)]
              exact hkeys

/-- C9.  load_zones performs no geometric validation: a document entry whose
point list parses to fewer than 3 points is returned as a zone unchanged, and
that degenerate polygon participates unchanged in the containment test — the
zone's final count is the number of filtered detections passing the
boundary-inclusive test against exactly that polygon.  (A zone with zero
points is excluded here: cv.pointPolygonTest rejects an empty contour at
test time, a path handled by countLoop.) -/
theorem C9_degenerate_zones_participate (name : String) (pts : List Json)
    (pl : List (Int × Int)) (cam : CamEnv) (dets0 : List Detection)
    (hparse : parsePoints (Json.arr pts) = some pl)
    (hpos : 0 < pl.length) (_hdeg : pl.length < 3)
    (hcap : (capture_image cam).result.isSome = true) :
    load_zones (ZoneDoc.parsed (Json.obj [(name, Json.arr pts)])) = [(name, pl)]
    ∧ count_people { cam := cam,
                     doc := ZoneDoc.parsed (Json.obj [(name, Json.arr pts)]),
                     detector := some dets0 }
        = [(name, ((filterDetections dets0).filter (fun d => inZone pl d)).length)] := by
  have hload : load_zones (ZoneDoc.parsed (Json.obj [(name, Json.arr pts)])) = [(name, pl)] := by
    simp [load_zones, mapOption, parseZone, hparse]
  refine ⟨hload, ?_⟩
  obtain ⟨u, hu⟩ := Option.isSome_iff_exists.1 hcap
  have hplne : ¬(pl = []) := by
    intro h; rw [h] at hpos; simp at hpos
  simp only [count_people, hu, hload]
  by_cases hd : (filterDetections dets0).length > 0
  · simp [countLoop, hd, hplne, setAssoc]
  · have hnil : filterDetections dets0 = [] := by
      cases h : filterDetections dets0 with
      | nil => rfl
      | cons a l => rw [h] at hd; simp at hd
    simp [countLoop, hnil, setAssoc]

/-- Witness for C9: the two-point zone "S" with segment (0,0)-(10,0) loads
unchanged, and a detection whose anchor (5,0) lies on that segment is counted
in it. -/
theorem C9_witness :
    load_zones (ZoneDoc.parsed (Json.obj [("S", Json.arr [jpt 0 0, jpt 10 0])]))
      = [("S", [(0, 0), (10, 0)])]
    ∧ count_people { cam := camOk,
                     doc := ZoneDoc.parsed (Json.obj [("S", Json.arr [jpt 0 0, jpt 10 0])]),
                     detector := some
                       [{ x1 := 3, y1 := 0, x2 := 7, y2 := 0, confidence := 1, class_id := 0 }] }
        = [("S", 1)] := by
  have hparse : parsePoints (Json.arr [jpt 0 0, jpt 10 0]) = some [(0, 0), (10, 0)] := by
    simp [parsePoints, mapOption, parsePoint_jpt]
  have h := C9_degenerate_zones_participate "S" [jpt 0 0, jpt 10 0] [(0, 0), (10, 0)]
    camOk [{ x1 := 3, y1 := 0, x2 := 7, y2 := 0, confidence := 1, class_id := 0 }]
    hparse (by simp) (by simp) rfl
  refine ⟨h.1, ?_⟩
  rw [h.2]
  have hfil : filterDetections
      [{ x1 := 3, y1 := 0, x2 := 7, y2 := 0, confidence := 1, class_id := 0 }]
      = [{ x1 := 3, y1 := 0, x2 := 7, y2 := 0, confidence := 1, class_id := 0 }] := by
    norm_num [filterDetections, List.filter]
  have hin : inZone [(0, 0), (10, 0)]
      { x1 := 3, y1 := 0, x2 := 7, y2 := 0, confidence := 1, class_id := 0 } = true :=
    inZone_eval_true (by norm_num [pointPolygonTest, toQPoly, pptGo, anchor])
  rw [hfil]
  simp [List.filter, hin, -Prod.mk_zero_zero]

/-- C7.  For every inbound payload and every counting-pipeline outcome the
handler emits exactly one count_people_answer event; its payload agrees with
the inbound payload on every key other than results; and its results value is
the ordered array over the fixed canonical order A, B, C of the computed
counts with missing zones defaulting to 0 — or the all-zero array [0, 0, 0]
when the pipeline raised, rather than emitting nothing. -/
theorem C7_single_answer_with_results (data : List (String × Json))
    (pipeline : Option CountEnv) :
    ∃ payload,
      count_people_event data pipeline = [("count_people_answer", payload)]
      ∧ eraseKey payload "results" = eraseKey data "results"
      ∧ assocLookup payload "results" =
          some (Json.arr
            ((match pipeline with
              | some env =>
                  ["A", "B", "C"].map (fun z => (assocLookup (count_people env) z).getD 0)
              | none => [0, 0, 0]).map (fun n => Json.num (n : ℚ)))) := by
  cases pipeline with
  | some env =>
      refine ⟨_, rfl, eraseKey_setAssoc data "results" _, ?_⟩
      rw [assocLookup_setAssoc_self]
  | none =>
      refine ⟨_, rfl, eraseKey_setAssoc data "results" _, ?_⟩
      rw [assocLookup_setAssoc_self]
      simp

/-- C8.  Over a run starting in the initial state whose first N iterations
fail to connect and whose next iteration connects successfully: exactly N+1
connection attempts are made; the connect failure is logged verbosely exactly
once when N is at least 1 (only the first failure of the losing streak;
later failures of the streak are silent); sio.disconnect() is invoked in the
teardown of every one of the N+1 iterations, its own failure ignored; every
iteration ends with a sleep of exactly RETRY_DELAY = 5 seconds, the fixed
flat delay; and the successful connection resets the streak flag, which is
why its eventual drop is logged verbosely (exactly one verbose drop log).
In addition, over ANY outcome sequence the loop makes one attempt per
iteration forever — it never gives up — and every sleep in any trace equals
RETRY_DELAY (no exponential backoff). -/
theorem C8_fixed_delay_retry_with_quiet_streaks (n : Nat) :
    ((connRun true (List.replicate n ConnOutcome.fail ++ [ConnOutcome.success])).count
        MainEv.attempt = n + 1)
    ∧ ((connRun true (List.replicate n ConnOutcome.fail ++ [ConnOutcome.success])).count
        MainEv.failLogVerbose = min n 1)
    ∧ ((connRun true (List.replicate n ConnOutcome.fail ++ [ConnOutcome.success])).count
        MainEv.disconnectCall = n + 1)
    ∧ ((connRun true (List.replicate n ConnOutcome.fail ++ [ConnOutcome.success])).count
        (MainEv.sleep RETRY_DELAY) = n + 1)
    ∧ ((connRun true (List.replicate n ConnOutcome.fail ++ [ConnOutcome.success])).count
        MainEv.dropLogVerbose = 1)
    ∧ RETRY_DELAY = 5
    ∧ (∀ (outs : List ConnOutcome) (first : Bool),
        (connRun first outs).count MainEv.attempt = outs.length)
    ∧ (∀ (outs : List ConnOutcome) (first : Bool),
        (connRun first outs).all sleepIsRetryDelay = true) := by
  have hglobal1 := connRun_count_attempt
  have hglobal2 := connRun_all_sleeps
  cases n with
  | zero =>
      refine ⟨by decide, by decide, by decide, by decide, by decide, rfl,
        fun outs first => hglobal1 outs first, fun outs first => hglobal2 outs first⟩
  | succ m =>
      obtain ⟨i1, i2, i3, i4, i5⟩ := connRun_false_counts m
      have hrepl : List.replicate (m + 1) ConnOutcome.fail ++ [ConnOutcome.success]
          = ConnOutcome.fail :: (List.replicate m ConnOutcome.fail ++ [ConnOutcome.success]) := by
        simp [List.replicate_succ]
      have c1 : (connIter true ConnOutcome.fail).2.count MainEv.attempt = 1 := by decide
      have c2 : (connIter true ConnOutcome.fail).2.count MainEv.failLogVerbose = 1 := by decide
      have c3 : (connIter true ConnOutcome.fail).2.count MainEv.disconnectCall = 1 := by decide
      have c4 : (connIter true ConnOutcome.fail).2.count (MainEv.sleep RETRY_DELAY) = 1 := by
        decide
      have c5 : (connIter true ConnOutcome.fail).2.count MainEv.dropLogVerbose = 0 := by decide
      refine ⟨?_, ?_, ?_, ?_, ?_, rfl,
        fun outs first => hglobal1 outs first, fun outs first => hglobal2 outs first⟩ <;>
        rw [hrepl, connRun_cons, List.count_append]
      · rw [c1, i1]; omega
      · rw [c2, i2]; omega
      · rw [c3, i3]; omega
      · rw [c4, i4]; omega
      · rw [c5, i5]
